import Mathlib

/-!
# goProxy — verification of the rule-based forward proxy core

Shallow embedding of the goProxy sources (rule-list parsing, CIDR/IP
handling, the decision engine, the external-rule cache loader, the
upstream CONNECT tunnel and the request dispatcher) together with
theorems settling the specification claims about them.

Strings are modelled at the level of their character lists (Go works on
byte strings; all inputs relevant to the claims are ASCII, where the two
views agree).  Side-effecting operations (HTTP fetches, DNS lookups,
glob compilation, file I/O) are modelled by explicit oracle inputs, and
stateful caches by explicit state passing.
-/

namespace GoProxy

/-! ## Go string primitives (package strings), on `List Char` -/

/-- Character class used by `unicode.IsSpace` restricted to ASCII
(Go additionally treats a few non-ASCII code points as space; the
inputs in this development are ASCII). -/
def goIsSpace (c : Char) : Bool :=
  c == ' ' || c == '\t' || c == '\n' || c == (Char.ofNat 11) ||
  c == (Char.ofNat 12) || c == '\r'

/-- `strings.TrimSpace` on a character list. -/
def trimSpace (l : List Char) : List Char :=
  ((l.dropWhile goIsSpace).reverse.dropWhile goIsSpace).reverse

/-- Whether `pat` occurs at the head of `l`. -/
def listStartsWith (pat l : List Char) : Bool :=
  match pat, l with
  | [], _ => true
  | _ :: _, [] => false
  | p :: ps, c :: cs => p == c && listStartsWith ps cs

/-- `strings.Index l pat`: index of the first occurrence of `pat` in
`l`, or `none` (Go returns `-1`). -/
def strIndex (l pat : List Char) : Option Nat :=
  match l with
  | [] => if pat.isEmpty then some 0 else none
  | _ :: cs =>
    if listStartsWith pat l then some 0
    else (strIndex cs pat).map (· + 1)

/-- `strings.Split` on a single-character separator, keeping empty
pieces (the shape used by `strings.Split(input, "\n")`). -/
def splitOnChar (sep : Char) (l : List Char) : List (List Char) :=
  match l with
  | [] => [[]]
  | c :: cs =>
    if c == sep then [] :: splitOnChar sep cs
    else
      match splitOnChar sep cs with
      | [] => [[c]]
      | p :: ps => (c :: p) :: ps

/-- `strings.Join` with a single-space separator. -/
def joinSpace : List (List Char) → List Char
  | [] => []
  | [l] => l
  | l :: ls => l ++ ' ' :: joinSpace ls

/-- `strings.ReplaceAll` for single characters. -/
def replaceChar (a b : Char) (l : List Char) : List Char :=
  l.map fun c => if c == a then b else c

/-- `strings.Fields`: split around every run of white space and keep
the (nonempty) maximal runs of non-space characters. -/
def fields (l : List Char) : List (List Char) :=
  (l.splitOnP goIsSpace).filter fun t => !t.isEmpty

/-! ## config/parser.go — `parseStringToList` -/

/-- The two comment-marker passes applied to one line inside
`parseStringToList` (config/parser.go): each marker truncates the line
at its first occurrence only when the text before it is all whitespace. -/
def stripLineComment (line : List Char) : List Char :=
  let line :=
    match strIndex line ['/', '/'] with
    | some idx =>
      if trimSpace (line.take idx) = [] then line.take idx else line
    | none => line
  match strIndex line ['#'] with
  | some idx =>
    if trimSpace (line.take idx) = [] then line.take idx else line
  | none => line

/-- Wildcard-expansion loop body of `parseStringToList`: each field is
kept, and under `expandWildcardDomains` a field beginning with the two
characters `*.` additionally emits the bare base domain. -/
def expandParts (expandWildcardDomains : Bool) (parts : List (List Char)) :
    List (List Char) :=
  parts.flatMap fun part =>
    if part ≠ [] then
      part ::
        (if expandWildcardDomains && listStartsWith ['*', '.'] part then
          [part.drop 2]
        else [])
    else []

/-- `parseStringToList` from config/parser.go on character lists:
split on newlines, strip comment-only lines, rejoin with spaces,
normalize commas to spaces, split on whitespace, expand wildcards. -/
def parseListChars (input : List Char) (expandWildcardDomains : Bool) :
    List (List Char) :=
  if input = [] then []
  else
    let lines := splitOnChar '\n' input
    let cleanedLines := lines.map fun line => trimSpace (stripLineComment line)
    let cleanedInput := joinSpace cleanedLines
    let normalized := replaceChar ',' ' ' cleanedInput
    let parts := fields normalized
    expandParts expandWildcardDomains parts

/-- `parseStringToList` on Lean strings. -/
def parseStringToList (input : String) (expandWildcardDomains : Bool) :
    List String :=
  (parseListChars input.data expandWildcardDomains).map fun l => String.mk l

/-- Position of the first comment marker of a line: the earlier of the
first `//` and the first `#` occurrence. -/
def firstMarkerIdx (line : List Char) : Option Nat :=
  match strIndex line ['/', '/'], strIndex line ['#'] with
  | some i, some j => some (min i j)
  | some i, none => some i
  | none, some j => some j
  | none, none => none

/-- The per-line cleaning step of `parseStringToList`: comment
stripping followed by `strings.TrimSpace`. -/
def cleanLine (line : List Char) : List Char :=
  trimSpace (stripLineComment line)

/-- The whitespace-separated tokens produced by the normalization
pipeline of `parseStringToList`, before wildcard expansion. -/
def tokensOf (input : List Char) : List (List Char) :=
  fields (replaceChar ',' ' ' (joinSpace ((splitOnChar '\n' input).map cleanLine)))

/-- `tokensOf` on Lean strings. -/
def tokensOfStr (input : String) : List String :=
  (tokensOf input.data).map fun l => String.mk l

/-- `strings.TrimSpace` on Lean strings. -/
def goTrimSpace (s : String) : String := String.mk (trimSpace s.data)

/-! ## config/parser.go — `preParseRuleLists` (rule compilation) -/

/-- Rule-shaped YAML blob (config/types.go `RuleBaseConfig`): the
textual pattern fields of a rule. -/
structure RuleBaseConfig where
  name : String := ""
  ips : String := ""
  hosts : String := ""
  urls : String := ""
  externalIps : String := ""
  externalHosts : String := ""
  externalURLs : String := ""
  externalRule : String := ""
deriving Repr, DecidableEq

/-- `loadExternalRuleList` (config/parser.go): fetch one external
source and parse its content; a fetch error yields the empty list (the
failure is logged at WARN and the source dropped).  `fetch` is the
oracle for `loadExternalRules` (HTTP with on-disk cache, or local
file). -/
def loadExternalRuleList (fetch : String → Option String) (url : String)
    (expandWildcardDomains : Bool) : List String :=
  if url = "" then []
  else
    match fetch url with
    | none => []
    | some content => parseStringToList content expandWildcardDomains

/-- One `loadTask` of `preParseRuleLists`: the parsed inline field is
extended with the parsed content of every external source.  The Go
code appends goroutine results under a mutex, so only the order of the
appended blocks may differ from this sequential model; all claims about
the parsed lists are membership claims, which are order-insensitive. -/
def runLoadTask (fetch : String → Option String) (inline : List String)
    (sources : List String) (expandWildcards : Bool) : List String :=
  inline ++ sources.flatMap fun source =>
    if source = "" then [] else loadExternalRuleList fetch source expandWildcards

/-- The compiled `parsedIps` of one rule (`preParseRuleLists`,
config/parser.go): inline `ips` merged with the external-rule blob,
then external `ips` sources. -/
def preParsedIps (fetch : String → Option String) (rule ext : RuleBaseConfig) :
    List String :=
  runLoadTask fetch
    (parseStringToList (goTrimSpace (rule.ips ++ "\n" ++ ext.ips)) false)
    (parseStringToList (goTrimSpace (rule.externalIps ++ "\n" ++ ext.externalIps)) false)
    false

/-- The compiled `parsedHosts` of one rule: host lists are parsed with
wildcard expansion enabled. -/
def preParsedHosts (fetch : String → Option String) (rule ext : RuleBaseConfig) :
    List String :=
  runLoadTask fetch
    (parseStringToList (goTrimSpace (rule.hosts ++ "\n" ++ ext.hosts)) true)
    (parseStringToList (goTrimSpace (rule.externalHosts ++ "\n" ++ ext.externalHosts)) false)
    true

/-- The compiled `parsedURLs` of one rule. -/
def preParsedURLs (fetch : String → Option String) (rule ext : RuleBaseConfig) :
    List String :=
  runLoadTask fetch
    (parseStringToList (goTrimSpace (rule.urls ++ "\n" ++ ext.urls)) false)
    (parseStringToList (goTrimSpace (rule.externalURLs ++ "\n" ++ ext.externalURLs)) false)
    false

/-- All whitespace-separated host tokens contributing to a rule's
parsed host list: the inline/merged `hosts` tokens plus the tokens of
every successfully fetched external host source. -/
def hostTokens (fetch : String → Option String) (rule ext : RuleBaseConfig) :
    List String :=
  tokensOfStr (goTrimSpace (rule.hosts ++ "\n" ++ ext.hosts)) ++
    (parseStringToList (goTrimSpace (rule.externalHosts ++ "\n" ++ ext.externalHosts)) false).flatMap
      (fun source =>
        if source = "" then []
        else
          match fetch source with
          | none => []
          | some content => tokensOfStr content)

/-! ## The Go net package: IP addresses, CIDR networks -/

/-- Go `net.IP`: a byte slice of length 4 or 16, bytes as `Nat` values
below 256. -/
abbrev GoIP := List Nat

/-- The 12-byte head marking an IPv4-mapped address inside a 16-byte
`net.IP` (`v4InV6Prefix`). -/
def v4InV6Head : List Nat := [0, 0, 0, 0, 0, 0, 0, 0, 0, 0, 255, 255]

/-- `net.IP.To4`: the 4-byte form of an IPv4 address, `none` for
anything else. -/
def ipTo4 (ip : GoIP) : Option GoIP :=
  if ip.length = 4 then some ip
  else if ip.length = 16 ∧ ip.take 12 = v4InV6Head then some (ip.drop 12)
  else none

/-- ASCII decimal digit test. -/
def isDigit (c : Char) : Bool := '0' ≤ c && c ≤ '9'

/-- Numeric value of an ASCII decimal digit. -/
def digitVal (c : Char) : Nat := c.toNat - '0'.toNat

/-- One dotted-quad field: 1–3 decimal digits, no leading zero, value
at most 255 (the parser in net rejects leading zeros since Go 1.17). -/
def parseOctet (f : List Char) : Option Nat :=
  if f ≠ [] ∧ f.length ≤ 3 ∧ f.all isDigit ∧ (f.length = 1 ∨ f.headD ' ' ≠ '0') then
    let v := f.foldl (fun acc c => acc * 10 + digitVal c) 0
    if v ≤ 255 then some v else none
  else none

/-- Dotted-quad IPv4 text to its 4 bytes. -/
def parseDotQuad (s : List Char) : Option (List Nat) :=
  let fs := splitOnChar '.' s
  if fs.length = 4 then fs.mapM parseOctet else none

/-- ASCII hex digit test. -/
def isHexDigit (c : Char) : Bool :=
  ('0' ≤ c && c ≤ '9') || ('a' ≤ c && c ≤ 'f') || ('A' ≤ c && c ≤ 'F')

/-- Numeric value of an ASCII hex digit. -/
def hexVal (c : Char) : Nat :=
  if '0' ≤ c && c ≤ '9' then c.toNat - '0'.toNat
  else if 'a' ≤ c && c ≤ 'f' then c.toNat - 'a'.toNat + 10
  else c.toNat - 'A'.toNat + 10

/-- `xtoi`: consume leading hex digits, returning value and count;
fails when there is no digit or the value reaches `0xFFFFFF`. -/
def xtoi (s : List Char) : Option (Nat × Nat) :=
  let digits := s.takeWhile isHexDigit
  if digits = [] then none
  else
    let v := digits.foldl (fun acc c => acc * 16 + hexVal c) 0
    if v < 0xFFFFFF then some (v, digits.length) else none

/-- The group-reading loop of `parseIPv6` (net/ip.go): `acc` holds the
bytes read so far, `ellipsis` the byte position of a `::` if seen.
Returns the loop state at exit; each iteration consumes at least one
character and adds at least two bytes, so the fuel of 16 passed by
`parseIPv6` is never exhausted. -/
def parseIPv6Core (fuel : Nat) (acc : List Nat) (ellipsis : Option Nat)
    (s : List Char) : Option (List Nat × Option Nat × List Char) :=
  match fuel with
  | 0 => none
  | fuel + 1 =>
    if acc.length < 16 then
      match xtoi s with
      | none => none
      | some (n, c) =>
        if n > 0xFFFF then none
        else if c < s.length ∧ (s.drop c).headD ' ' = '.' then
          if acc.length + 4 > 16 then none
          else
            match parseDotQuad s with
            | none => none
            | some b4 => some (acc ++ b4, ellipsis, [])
        else
          let acc := acc ++ [n / 256, n % 256]
          let s := s.drop c
          if s = [] then some (acc, ellipsis, [])
          else if s.headD ' ' ≠ ':' ∨ s.length = 1 then none
          else
            let s := s.drop 1
            if s.headD ' ' = ':' then
              if ellipsis.isSome then none
              else
                let ellipsis := some acc.length
                let s := s.drop 1
                if s = [] then some (acc, ellipsis, [])
                else parseIPv6Core fuel acc ellipsis s
            else parseIPv6Core fuel acc ellipsis s
    else some (acc, ellipsis, s)

/-- `parseIPv6` (net/ip.go): textual IPv6 address to its 16 bytes,
including `::` compression and an embedded trailing dotted quad. -/
def parseIPv6 (s : List Char) : Option (List Nat) :=
  let el0 : Option Nat := if listStartsWith [':', ':'] s then some 0 else none
  let s0 := if listStartsWith [':', ':'] s then s.drop 2 else s
  if el0 = some 0 ∧ s0 = [] then some (List.replicate 16 0)
  else
    match parseIPv6Core 16 [] el0 s0 with
    | none => none
    | some (acc, ellipsis, rest) =>
      if rest ≠ [] then none
      else if acc.length < 16 then
        match ellipsis with
        | none => none
        | some e =>
          some (acc.take e ++ List.replicate (16 - acc.length) 0 ++ acc.drop e)
      else if ellipsis.isSome then none
      else some acc

/-- `net.ParseIP`: dispatch on whichever of `.` and `:` appears first;
the result is always in 16-byte form (v4 addresses in v4-in-v6 form),
as returned by the net package. -/
def goParseIP (s : List Char) : Option GoIP :=
  match s.find? (fun c => c == '.' || c == ':') with
  | some '.' => (parseDotQuad s).map (fun b4 => v4InV6Head ++ b4)
  | some ':' => parseIPv6 s
  | _ => none

/-- A parsed `*net.IPNet`: masked network base and mask, in matching
4- or 16-byte form. -/
structure GoIPNet where
  ip : List Nat
  mask : List Nat
deriving Repr, DecidableEq

/-- Bitwise AND of two bytes. -/
def byteAnd (a b : Nat) : Nat := Nat.land a b

/-- `net.CIDRMask n bits`: `bits/8` bytes with `n` leading one-bits. -/
def cidrMask (n bits : Nat) : List Nat :=
  (List.range (bits / 8)).map fun k =>
    let r := min (n - k * 8) 8
    256 - 2 ^ (8 - r)

/-- `net.IP.Mask`: apply a mask to an address, with the 4/16-byte
coercions the net package performs. -/
def maskIP (ip mask : List Nat) : Option (List Nat) :=
  let mask :=
    if mask.length = 16 ∧ ip.length = 4 ∧ mask.take 12 = List.replicate 12 255
    then mask.drop 12 else mask
  let ip :=
    if mask.length = 4 ∧ ip.length = 16 ∧ ip.take 12 = v4InV6Head
    then ip.drop 12 else ip
  if ip.length = mask.length then some (List.zipWith byteAnd ip mask) else none

/-- `dtoi` combined with the `i == len(mask)` check of `ParseCIDR`:
the whole string must be decimal digits, with the value below
`0xFFFFFF`. -/
def dtoiAll (s : List Char) : Option Nat :=
  if s ≠ [] ∧ s.all isDigit then
    let v := s.foldl (fun acc c => acc * 10 + digitVal c) 0
    if v < 0xFFFFFF then some v else none
  else none

/-- `net.ParseCIDR`: split at the first `/`, parse the address (dotted
quad giving a 32-bit prefix length bound, otherwise IPv6 with 128) and
the decimal prefix length, and return the masked network. -/
def goParseCIDR (s : List Char) : Option GoIPNet :=
  match strIndex s ['/'] with
  | none => none
  | some i =>
    let addr := s.take i
    let maskStr := s.drop (i + 1)
    let parsed : Option (List Nat × Nat) :=
      match parseDotQuad addr with
      | some b4 => some (v4InV6Head ++ b4, 4)
      | none =>
        match parseIPv6 addr with
        | some b16 => some (b16, 16)
        | none => none
    match parsed, dtoiAll maskStr with
    | some (ip, iplen), some n =>
      if n ≤ 8 * iplen then
        let m := cidrMask n (8 * iplen)
        match maskIP ip m with
        | some masked => some ⟨masked, m⟩
        | none => none
      else none
    | _, _ => none

/-- `networkNumberAndMask` (net/ip.go): normalize a network to
matching address/mask lengths. -/
def networkNumberAndMask (n : GoIPNet) : Option (List Nat × List Nat) :=
  let ip? :=
    match ipTo4 n.ip with
    | some ip4 => some ip4
    | none => if n.ip.length = 16 then some n.ip else none
  match ip? with
  | none => none
  | some ip =>
    if n.mask.length = 4 then
      if ip.length = 4 then some (ip, n.mask) else none
    else if n.mask.length = 16 then
      if ip.length = 4 then some (ip, n.mask.drop 12) else some (ip, n.mask)
    else none

/-- `(*net.IPNet).Contains`. -/
def ipNetContains (n : GoIPNet) (ip : GoIP) : Bool :=
  match networkNumberAndMask n with
  | none => false
  | some (nn, m) =>
    let ip := match ipTo4 ip with | some x => x | none => ip
    ip.length = nn.length ∧
      List.zipWith byteAnd nn m = List.zipWith byteAnd ip m

/-- `net.IP.Equal`: byte equality up to the v4/v4-in-v6 coercion. -/
def goIPEqual (x y : GoIP) : Bool :=
  if x.length = y.length then x = y
  else if x.length = 4 ∧ y.length = 16 then
    y.take 12 = v4InV6Head ∧ x = y.drop 12
  else if x.length = 16 ∧ y.length = 4 then
    x.take 12 = v4InV6Head ∧ x.drop 12 = y
  else false

/-- Whether a byte list is a well-formed `net.IP` value: length 4 or
16 with every byte below 256. -/
def validGoIP (ip : GoIP) : Bool :=
  (ip.length = 4 ∨ ip.length = 16) ∧ ip.all (· < 256)

/-! ## cache/cache.go — `GetCIDRNet` -/

/-- `GetCIDRNet` (cache/cache.go): a bare IP without a `/` is
normalized by appending `/32` when `To4` succeeds and `/128`
otherwise, then handed to `net.ParseCIDR`.  The memoization in
`CacheManager` caches this pure computation and does not change its
value. -/
def getCIDRNet (cidr : String) : Option GoIPNet :=
  if cidr.data.contains '/' then goParseCIDR cidr.data
  else
    match goParseIP cidr.data with
    | none => none
    | some ip =>
      if (ipTo4 ip).isSome then goParseCIDR (cidr.data ++ ['/', '3', '2'])
      else goParseCIDR (cidr.data ++ ['/', '1', '2', '8'])

/-! ## handler/proxy_decision.go — the decision engine -/

/-- `cache.ProxyDecisionResult`: chosen proxy key, firing rule name and
the category of the match (`"url"`, `"host"`, `"ip"`, `"default"`, or
the zero value `""`). -/
structure ProxyDecisionResult where
  proxy : String
  ruleName : String
  matchType : String
deriving Repr, DecidableEq

/-- `config.RuleConfig` as consumed by the decision engine: identity,
negation flag and the compiled pattern lists. -/
structure RuleConfig where
  name : String := ""
  proxy : String := ""
  not : Bool := false
  parsedIps : List String := []
  parsedHosts : List String := []
  parsedURLs : List String := []
deriving Repr, DecidableEq

/-- `config.ProxyConfig` as consumed by the decision engine and the
dispatcher.  The Go `Proxies` map is modelled as an association list
queried only through `lookupProxy`. -/
structure ProxyConfig where
  defaultProxy : String := ""
  proxies : List (String × String) := []
  rules : List RuleConfig := []
deriving Repr, DecidableEq

/-- Go map read `m[k]` with its `ok` flag. -/
def lookupProxy (m : List (String × String)) (k : String) : Option String :=
  (m.find? fun p => p.1 == k).map Prod.snd

/-- Oracles for the effectful primitives of the decision engine:
`globMatch pattern s` is the result of compiling `pattern` with
`gobwas/glob` and matching `s` (`false` also covers a compilation
error, which the code maps to no-match), and `resolveHost` is the
DNS lookup `ResolveHost` (`none` is a resolution error; the
`CacheManager` memoization does not change values). -/
structure MatchEnv where
  globMatch : String → String → Bool
  resolveHost : String → Option (List GoIP)

/-- The port-stripping preamble of `matchesGlob`: split on `:` and keep
the first part only when that yields exactly two parts. -/
def stripPort (s : String) : String :=
  if s.data.contains ':' then
    let hostParts := splitOnChar ':' s.data
    if hostParts.length = 2 then String.mk (hostParts.headD []) else s
  else s

/-- `matchesGlob` (handler/proxy_decision.go): literal equality
short-circuit, then glob matching, on the port-stripped host. -/
def matchesGlob (env : MatchEnv) (pattern s : String) : Bool :=
  let hostWithoutPort := stripPort s
  if pattern = hostWithoutPort then true
  else env.globMatch pattern hostWithoutPort

/-- `matchesURLPattern` (handler/proxy_decision.go). -/
def matchesURLPattern (env : MatchEnv) (pattern url : String) : Bool :=
  env.globMatch pattern url

/-- The target-IP computation of the IP category in `evaluateRules`:
literal parse first, DNS resolution otherwise, no IPs on failure. -/
def targetIPsOf (env : MatchEnv) (host : String) : List GoIP :=
  match goParseIP host.data with
  | some targetIP => [targetIP]
  | none =>
    match env.resolveHost host with
    | some ips => ips
    | none => []

/-- One `ipRule` test of `evaluateRules`: CIDR containment of any
target IP when the rule parses as a CIDR, otherwise DNS-resolve the
rule and compare IPs. -/
def ipRuleMatchesTargets (env : MatchEnv) (ipRule : String)
    (targetIPs : List GoIP) : Bool :=
  match getCIDRNet ipRule with
  | some ipNet => targetIPs.any fun tip => ipNetContains ipNet tip
  | none =>
    match env.resolveHost ipRule with
    | some ruleIPs =>
      ruleIPs.any fun rip => targetIPs.any fun tip => goIPEqual rip tip
    | none => false

/-- The IP category of `evaluateRules`: guarded by nonempty target
IPs, any `ipRule` may fire. -/
def ipCategoryMatches (env : MatchEnv) (ipRules : List String)
    (host : String) : Bool :=
  let targetIPs := targetIPsOf env host
  targetIPs.length > 0 &&
    ipRules.any fun ipRule => ipRuleMatchesTargets env ipRule targetIPs

/-- The per-rule body of `evaluateRules`: the `matchesRule`/`matchType`
flags after the three guarded category loops (each `for … break` loop
is the corresponding `List.any`). -/
def evalRuleMatch (env : MatchEnv) (rule : RuleConfig) (host fullURL : String) :
    Bool × String :=
  if rule.parsedURLs.length > 0 &&
      rule.parsedURLs.any (fun urlRule => matchesURLPattern env urlRule fullURL) then
    (true, "url")
  else if rule.parsedHosts.length > 0 &&
      rule.parsedHosts.any (fun hostRule => matchesGlob env hostRule host) then
    (true, "host")
  else if rule.parsedIps.length > 0 && ipCategoryMatches env rule.parsedIps host then
    (true, "ip")
  else (false, "")

/-- Whether a rule fires: the category match flag, inverted when
`rule.Not` is set. -/
def ruleFires (env : MatchEnv) (rule : RuleConfig) (host fullURL : String) :
    Bool :=
  let mr := evalRuleMatch env rule host fullURL
  if rule.not then !mr.1 else mr.1

/-- `rule.Name`, defaulted to `"unnamed rule"`. -/
def ruleDisplayName (rule : RuleConfig) : String :=
  if rule.name = "" then "unnamed rule" else rule.name

/-- The rule loop of `evaluateRules`: first firing rule wins. -/
def evaluateRulesFrom (env : MatchEnv) (defaultProxy : String)
    (rules : List RuleConfig) (host fullURL : String) : ProxyDecisionResult :=
  match rules with
  | [] => ⟨defaultProxy, "default", "default"⟩
  | rule :: rest =>
    if ruleFires env rule host fullURL then
      ⟨rule.proxy, ruleDisplayName rule, (evalRuleMatch env rule host fullURL).2⟩
    else evaluateRulesFrom env defaultProxy rest host fullURL

/-- `evaluateRules` (handler/proxy_decision.go). -/
def evaluateRules (env : MatchEnv) (cfg : ProxyConfig) (host fullURL : String) :
    ProxyDecisionResult :=
  evaluateRulesFrom env cfg.defaultProxy cfg.rules host fullURL

/-- The three decision caches of `ProxyDecision` (hashicorp LRU caches
of capacity 1000; the library's `Get`/`Add` are modelled as key-value
map reads/writes — LRU eviction and the IP cache's TTL expiry only
remove entries and are not exercised by any claim). -/
structure DecisionCaches where
  urlCache : List (String × ProxyDecisionResult) := []
  hostCache : List (String × ProxyDecisionResult) := []
  ipCache : List (String × ProxyDecisionResult) := []
deriving Repr, DecidableEq

/-- LRU `Get`. -/
def cacheGet (c : List (String × ProxyDecisionResult)) (k : String) :
    Option ProxyDecisionResult :=
  (c.find? fun p => p.1 == k).map Prod.snd

/-- LRU `Add`. -/
def cacheAdd (c : List (String × ProxyDecisionResult)) (k : String)
    (v : ProxyDecisionResult) : List (String × ProxyDecisionResult) :=
  (k, v) :: c

/-- `getProxyDecision` (handler/proxy_decision.go): URL cache, host
cache, IP cache, then rule evaluation, memoizing the result in the
cache selected by `switch result.MatchType`. -/
def getProxyDecision (env : MatchEnv) (cfg : ProxyConfig)
    (caches : DecisionCaches) (host fullURL : String) :
    ProxyDecisionResult × DecisionCaches :=
  match cacheGet caches.urlCache fullURL with
  | some result => (result, caches)
  | none =>
    match cacheGet caches.hostCache host with
    | some result => (result, caches)
    | none =>
      match cacheGet caches.ipCache host with
      | some result => (result, caches)
      | none =>
        let result := evaluateRules env cfg host fullURL
        let caches2 :=
          if result.matchType = "url" then
            { caches with urlCache := cacheAdd caches.urlCache fullURL result }
          else if result.matchType = "ip" then
            { caches with ipCache := cacheAdd caches.ipCache host result }
          else
            { caches with hostCache := cacheAdd caches.hostCache host result }
        (result, caches2)

/-- A parsed `url.URL` as the decision entry points consume it:
`hostname` is `URL.Hostname()` (port already stripped), `scheme` the
parsed scheme, and `render σ` the serialization `URL.String()` after
the scheme has been set to `σ`. -/
structure GoURL where
  scheme : String
  hostname : String
  render : String → String

/-- `GetProxyForRequest` (handler/proxy_decision.go): decision plus
`Proxies` lookup; a missing key yields the zero string and a non-nil
error. -/
def GetProxyForRequest (env : MatchEnv) (cfg : ProxyConfig)
    (caches : DecisionCaches) (r : GoURL) :
    (String × ProxyDecisionResult × Option String) × DecisionCaches :=
  let host := r.hostname
  let fullURL := r.render r.scheme
  let (decision, caches2) := getProxyDecision env cfg caches host fullURL
  match lookupProxy cfg.proxies decision.proxy with
  | some proxyURL => ((proxyURL, decision, none), caches2)
  | none =>
    (("", decision,
      some ("proxy key " ++ decision.proxy ++ " not found in proxies map")),
      caches2)

/-- `GetProxyForURL` (handler/proxy_decision.go): parse the bare URL
(`parse` is the `url.Parse` oracle), default a missing scheme to
`http`, decide, and read the `Proxies` map without an existence check
— a missing key silently yields the empty proxy URL and no error. -/
def GetProxyForURL (env : MatchEnv) (cfg : ProxyConfig)
    (caches : DecisionCaches) (parse : String → Option GoURL) (urlStr : String) :
    (String × Option GoURL × ProxyDecisionResult × Option String) ×
      DecisionCaches :=
  match parse urlStr with
  | none => (("", none, ⟨"", "", ""⟩, some "url parse error"), caches)
  | some parsedURL =>
    let scheme := if parsedURL.scheme = "" then "http" else parsedURL.scheme
    let host := parsedURL.hostname
    let fullURL := parsedURL.render scheme
    let (decision, caches2) := getProxyDecision env cfg caches host fullURL
    let proxyURL := (lookupProxy cfg.proxies decision.proxy).getD ""
    ((proxyURL, some { parsedURL with scheme := scheme }, decision, none),
      caches2)

/-! ## The specification's rule walk (§4.3), stated in its own terms -/

/-- The three pattern categories of the specification. -/
inductive MatchCategory where
  | url
  | host
  | ip
deriving Repr, DecidableEq

/-- The spec's name for a category in a `DecisionResult` (no category
when a rule fires only through negation). -/
def categoryName : Option MatchCategory → String
  | some .url => "url"
  | some .host => "host"
  | some .ip => "ip"
  | none => ""

/-- Spec §4.3: whether one category of a rule matches the request. -/
def specCategoryHits (env : MatchEnv) (rule : RuleConfig)
    (host fullURL : String) : MatchCategory → Bool
  | .url => rule.parsedURLs.any fun p => matchesURLPattern env p fullURL
  | .host => rule.parsedHosts.any fun p => matchesGlob env p host
  | .ip =>
    !(targetIPsOf env host).isEmpty &&
      rule.parsedIps.any fun p => ipRuleMatchesTargets env p (targetIPsOf env host)

/-- Spec §4.3: test categories in the order `{urls, hosts, ips}` and
stop at the first match. -/
def specFirstMatch (env : MatchEnv) (rule : RuleConfig)
    (host fullURL : String) : Option MatchCategory :=
  [MatchCategory.url, MatchCategory.host, MatchCategory.ip].find?
    (specCategoryHits env rule host fullURL)

/-- Spec §4.3: `fires = matches XOR negate`. -/
def specRuleFires (env : MatchEnv) (rule : RuleConfig)
    (host fullURL : String) : Bool :=
  xor (specFirstMatch env rule host fullURL).isSome rule.not

/-- Spec §4.3: the first rule that fires yields its proxy key, its
name (or `"unnamed rule"`) and the matching category; if no rule
fires, the default disposition. -/
def specDecision (env : MatchEnv) (cfg : ProxyConfig) (host fullURL : String) :
    ProxyDecisionResult :=
  match cfg.rules.find? (fun rule => specRuleFires env rule host fullURL) with
  | some rule =>
    ⟨rule.proxy, if rule.name = "" then "unnamed rule" else rule.name,
      categoryName (specFirstMatch env rule host fullURL)⟩
  | none => ⟨cfg.defaultProxy, "default", "default"⟩

/-! ## config/cache.go — `downloadWithClient` -/

/-- The outcome of `client.Get(downloadURL)`. -/
inductive HTTPGetResult where
  | transportError
  | response (statusCode : Nat)
deriving Repr, DecidableEq

/-- File-system conditions of one `downloadWithClient` run: whether a
cache file for the URL already exists on disk (`os.Stat` succeeding),
and whether `os.Create` of the cache file and the `io.Copy` of the
response body succeed. -/
structure CacheFileWorld where
  cacheExists : Bool
  createOk : Bool
  copyOk : Bool
deriving Repr, DecidableEq

/-- `downloadWithClient` (config/cache.go): on an HTTP transport error
or a non-200 status the cached file is served when it exists;
otherwise the body is written to the cache file, and a create or copy
failure is returned as an error without consulting the cache. -/
def downloadWithClient (get : HTTPGetResult) (w : CacheFileWorld)
    (downloadURL cacheFile : String) : Except String String :=
  match get with
  | .transportError =>
    if w.cacheExists then .ok cacheFile
    else .error ("failed to download " ++ downloadURL)
  | .response statusCode =>
    if statusCode ≠ 200 then
      if w.cacheExists then .ok cacheFile
      else .error ("failed to download " ++ downloadURL ++ ": bad status")
    else if !w.createOk then .error "failed to create cache file"
    else if !w.copyOk then .error "failed to write cache file"
    else .ok cacheFile

/-! ## main.go — `dialContext` and the CONNECT tunnel -/

/-- UTF-8 encoding of one character: the bytes Go`s `[]byte(s)` holds
for it. -/
def utf8EncodeChar (c : Char) : List Nat :=
  let n := c.toNat
  if n < 0x80 then [n]
  else if n < 0x800 then [0xC0 + n / 0x40, 0x80 + n % 0x40]
  else if n < 0x10000 then
    [0xE0 + n / 0x1000, 0x80 + (n / 0x40) % 0x40, 0x80 + n % 0x40]
  else
    [0xF0 + n / 0x40000, 0x80 + (n / 0x1000) % 0x40,
     0x80 + (n / 0x40) % 0x40, 0x80 + n % 0x40]

/-- The bytes of a Go string. -/
def utf8Bytes (s : String) : List Nat := s.data.flatMap utf8EncodeChar

/-- The standard base64 alphabet. -/
def base64Table : List Char :=
  "ABCDEFGHIJKLMNOPQRSTUVWXYZabcdefghijklmnopqrstuvwxyz0123456789+/".data

/-- Character for one 6-bit group. -/
def base64Char (n : Nat) : Char := base64Table.getD n 'A'

/-- `base64.StdEncoding.EncodeToString` on a byte list. -/
def base64Encode : List Nat → List Char
  | [] => []
  | [b1] => [base64Char (b1 / 4), base64Char (b1 % 4 * 16), '=', '=']
  | [b1, b2] =>
    [base64Char (b1 / 4), base64Char (b1 % 4 * 16 + b2 / 16),
     base64Char (b2 % 16 * 4), '=']
  | b1 :: b2 :: b3 :: rest =>
    base64Char (b1 / 4) :: base64Char (b1 % 4 * 16 + b2 / 16) ::
      base64Char (b2 % 16 * 4 + b3 / 64) :: base64Char (b3 % 64) ::
      base64Encode rest

/-- `base64.StdEncoding.EncodeToString` as a string. -/
def base64EncodeStr (bytes : List Nat) : String := String.mk (base64Encode bytes)

/-- `*url.Userinfo`: username and optional password
(`Password()` reports presence through its second result). -/
structure GoUserinfo where
  username : String
  password : Option String
deriving Repr, DecidableEq

/-- The CONNECT request assembled by the `http`/`https` branch of
`dialContext` (main.go): request line and Host header for the target
address, a `Proxy-Authorization: Basic` line exactly when the
descriptor carries userinfo (with the password defaulting to the
empty string), then the final blank line. -/
def connectRequestString (addr : String) (user : Option GoUserinfo) : String :=
  let connectReq := "CONNECT " ++ addr ++ " HTTP/1.1\r\nHost: " ++ addr ++ "\r\n"
  let connectReq :=
    match user with
    | some u =>
      connectReq ++ "Proxy-Authorization: Basic " ++
        base64EncodeStr (utf8Bytes (u.username ++ ":" ++ u.password.getD "")) ++
        "\r\n"
    | none => connectReq
  connectReq ++ "\r\n"

/-- Behavior of the upstream socket after the TCP dial in the `http`
branch: whether `conn.Write` succeeds, and the status code parsed by
`http.ReadResponse` (`none` for a read or parse error). -/
structure TunnelWorld where
  writeOk : Bool
  readStatus : Option Nat
deriving Repr, DecidableEq

/-- The wire trace of the `http`/`https` CONNECT branch of
`dialContext`: the bytes handed to `conn.Write`, the Go return value,
and whether the connection was closed before returning. -/
structure HTTPConnectTrace where
  sent : String
  result : Except String Unit
  connClosed : Bool
deriving Repr

/-- The `http`/`https` branch of `dialContext` (main.go) after a
successful TCP dial to the upstream: write the CONNECT request, read
the response, and return the open connection only for status 200,
closing it on every failure path. -/
def httpConnectTunnel (addr : String) (user : Option GoUserinfo)
    (w : TunnelWorld) : HTTPConnectTrace :=
  let req := connectRequestString addr user
  if !w.writeOk then ⟨req, .error "error sending CONNECT request", true⟩
  else
    match w.readStatus with
    | none => ⟨req, .error "error reading proxy response", true⟩
    | some statusCode =>
      if statusCode ≠ 200 then
        ⟨req, .error "proxy CONNECT failed with status", true⟩
      else ⟨req, .ok (), false⟩

/-- A parsed upstream descriptor (`url.Parse` of the proxy URL):
scheme, `URL.Host` (host:port) and optional userinfo. -/
structure ProxyURLInfo where
  scheme : String
  hostport : String
  user : Option GoUserinfo
deriving Repr, DecidableEq

/-- The dispatch of `dialContext` (main.go) over the proxy-URL context
value. -/
inductive DialAction where
  | errNoProxyInContext
  | errBlocked
  | direct (addr : String)
  | socks5 (proxyHost : String) (auth : Option GoUserinfo) (addr : String)
  | httpConnect (proxyHost : String) (user : Option GoUserinfo) (addr : String)
  | errParse
  | errUnsupportedScheme (scheme : String)
deriving Repr, DecidableEq

/-- `dialContext` (main.go): missing context value and `"#"` are
errors, the empty descriptor is a direct dial, and otherwise the
parsed scheme selects SOCKS5, HTTP CONNECT, or an unsupported-scheme
error.  `parseProxy` is the `url.Parse` oracle for descriptors. -/
def dialContextAction (parseProxy : String → Option ProxyURLInfo)
    (ctxProxyURL : Option String) (addr : String) : DialAction :=
  match ctxProxyURL with
  | none => .errNoProxyInContext
  | some proxyURL =>
    if proxyURL = "#" then .errBlocked
    else if proxyURL = "" then .direct addr
    else
      match parseProxy proxyURL with
      | none => .errParse
      | some parsedURL =>
        if parsedURL.scheme = "socks5" ∨ parsedURL.scheme = "socks5h" then
          .socks5 parsedURL.hostport parsedURL.user addr
        else if parsedURL.scheme = "http" ∨ parsedURL.scheme = "https" then
          .httpConnect parsedURL.hostport parsedURL.user addr
        else .errUnsupportedScheme parsedURL.scheme

/-! ## main.go — `handleRequest`, and config/config.go — `LoadConfig` -/

/-- The client-visible outcome of `handleRequest` (main.go): an error
response with an HTTP status code (written through `http.Error`), or
the request forwarded to the goproxy server with the chosen proxy URL
placed in the request context. -/
inductive HandleOutcome where
  | errorResponse (status : Nat) (body : String)
  | forwarded (proxyURL : String)
deriving Repr, DecidableEq

/-- `handleRequest` (main.go): decision, then `Proxies` lookup — a
missing key is answered with status 500 (no panic: the lookup uses the
two-result map read), `"#"` with 403, anything else is forwarded with
the proxy URL in context. -/
def handleRequest (env : MatchEnv) (cfg : ProxyConfig)
    (caches : DecisionCaches) (r : GoURL) : HandleOutcome × DecisionCaches :=
  let host := r.hostname
  let fullURL := r.render r.scheme
  let (decisionResult, caches2) := getProxyDecision env cfg caches host fullURL
  match lookupProxy cfg.proxies decisionResult.proxy with
  | none => (.errorResponse 500 "Proxy configuration error", caches2)
  | some proxyURL =>
    if proxyURL = "#" then
      (.errorResponse 403 "Request blocked by proxy configuration", caches2)
    else (.forwarded proxyURL, caches2)

/-- A raw rule as decoded from YAML (config/config.go `RuleConfig`). -/
structure RawRuleConfig where
  name : String := ""
  proxy : String := ""
  ips : String := ""
  hosts : String := ""
  urls : String := ""
  externalIps : String := ""
  externalHosts : String := ""
  externalURLs : String := ""
  not : Bool := false
deriving Repr, DecidableEq

/-- A raw configuration document as decoded from YAML
(config/config.go `ProxyConfig`). -/
structure RawConfig where
  defaultProxy : String := ""
  proxies : List (String × String) := []
  listenAddr : String := ""
  logLevel : String := ""
  rules : List RawRuleConfig := []
deriving Repr, DecidableEq

/-- The default document `LoadConfig` synthesizes for a missing
configuration file. -/
def defaultRawConfig : RawConfig where
  defaultProxy := "direct"
  proxies :=
    [("socks5", "socks5://localhost:1080"), ("http", "http://localhost:8081"),
     ("direct", ""), ("block", "#")]
  listenAddr := ":8080"
  logLevel := "info"
  rules :=
    [{ name := "Local Networks", proxy := "direct",
       ips := "192.168.1.0/24 10.0.0.0/8 172.16.0.0/12",
       hosts := "localhost *.local *.example.com internal.company.com",
       urls := "http://internal-api.company.com/v1/* https://*.internal.com/api/*" },
     { name := "Inverted Proxy Rule", proxy := "socks5", not := true,
       hosts := "*.google.com *.youtube.com" },
     { name := "External Domains", proxy := "http",
       hosts := "*.external.com api.*.com" },
     { name := "Blocked Domains", proxy := "block",
       hosts := "*.malicious.com *.spam.com" }]

/-- Effects of one `LoadConfig` run (config/config.go): existence of
the config file, success of writing the default document, success of
opening the file, and the YAML decode outcome over the
default-initialized document. -/
structure ConfigFS where
  configExists : Bool
  saveDefaultOk : Bool
  openOk : Bool
  yamlDecoded : Except String RawConfig

/-- `LoadConfig` (config/config.go): synthesize and persist the
default document when the path does not exist, otherwise open and
decode it.  Log-level parsing and `preParseRuleLists` never fail, and
no step validates that rule proxy keys or the default key appear in
the `Proxies` map. -/
def LoadConfig (fs : ConfigFS) : Except String RawConfig :=
  if !fs.configExists then
    if fs.saveDefaultOk then .ok defaultRawConfig
    else .error "error creating default config file"
  else if !fs.openOk then .error "error opening config file"
  else
    match fs.yamlDecoded with
    | .error e => .error ("error parsing config file: " ++ e)
    | .ok config => .ok config

/-! ## Theorems -/

theorem listStartsWith_iff (pat l : List Char) :
    listStartsWith pat l = true ↔ ∃ post, l = pat ++ post := by
  induction pat generalizing l with
  | nil => simp [listStartsWith]
  | cons p ps ih =>
    cases l with
    | nil => simp [listStartsWith]
    | cons c cs =>
      simp only [listStartsWith, Bool.and_eq_true, beq_iff_eq, ih,
        List.cons_append, List.cons.injEq]
      constructor
      · rintro ⟨rfl, post, rfl⟩; exact ⟨post, rfl, rfl⟩
      · rintro ⟨post, rfl, rfl⟩; exact ⟨rfl, post, rfl⟩

theorem strIndex_some {l pat : List Char} {i : Nat}
    (h : strIndex l pat = some i) :
    ∃ pre post, l = pre ++ pat ++ post ∧ pre.length = i := by
  induction l generalizing i with
  | nil =>
    unfold strIndex at h
    by_cases hp : pat.isEmpty
    · rw [List.isEmpty_iff] at hp
      subst hp
      simp at h
      exact ⟨[], [], by simp, by simp [← h]⟩
    · simp [hp] at h
  | cons c cs ih =>
    unfold strIndex at h
    by_cases hs : listStartsWith pat (c :: cs)
    · rw [if_pos hs] at h
      obtain ⟨post, hpost⟩ := (listStartsWith_iff pat (c :: cs)).1 hs
      obtain rfl : (0 : Nat) = i := by simpa using h
      exact ⟨[], post, by simpa using hpost, rfl⟩
    · rw [if_neg hs, Option.map_eq_some'] at h
      obtain ⟨i', hi', rfl⟩ := h
      obtain ⟨pre, post, hl, hlen⟩ := ih hi'
      exact ⟨c :: pre, post, by simp [hl], by simp [hlen]⟩

theorem trimSpace_eq_nil_iff (l : List Char) :
    trimSpace l = [] ↔ ∀ c ∈ l, goIsSpace c := by
  unfold trimSpace
  rw [List.reverse_eq_nil_iff, List.dropWhile_eq_nil_iff]
  constructor
  · intro h c hc
    rw [← List.takeWhile_append_dropWhile (p := goIsSpace) (l := l)] at hc
    rcases List.mem_append.1 hc with h1 | h1
    · exact List.mem_takeWhile_imp h1
    · exact h c (List.mem_reverse.2 h1)
  · intro h c hc
    exact h c ((List.dropWhile_sublist goIsSpace).subset (List.mem_reverse.1 hc))

theorem mem_take_of_strIndex {l pat : List Char} {c : Char} {i j : Nat}
    (h : strIndex l (c :: pat) = some i) (hij : i < j) :
    c ∈ l.take j := by
  obtain ⟨pre, post, rfl, rfl⟩ := strIndex_some h
  rw [List.append_assoc, List.take_append_eq_append_take]
  refine List.mem_append.2 (Or.inr ?_)
  have hpos : 0 < j - pre.length := by omega
  rcases Nat.exists_eq_add_of_lt hpos with ⟨k, hk⟩
  rw [List.cons_append]
  cases hj : j - pre.length with
  | zero => omega
  | succ n => simp [List.take_succ_cons]

theorem trim_take_mono {l : List Char} {m j : Nat}
    (h : trimSpace (l.take m) ≠ []) (hmj : m ≤ j) :
    trimSpace (l.take j) ≠ [] := by
  intro hj
  apply h
  rw [trimSpace_eq_nil_iff] at hj ⊢
  intro c hc
  apply hj
  have : l.take m = (l.take j).take m := by
    rw [List.take_take, Nat.min_eq_left hmj]
  exact List.take_subset m (l.take j) (this ▸ hc)

theorem strIndex_hash_none_of_space {l : List Char}
    (h : ∀ c ∈ l, goIsSpace c) : strIndex l ['#'] = none := by
  cases hi : strIndex l ['#'] with
  | none => rfl
  | some i =>
    obtain ⟨pre, post, rfl, -⟩ := strIndex_some hi
    have := h '#' (by simp)
    simp [goIsSpace] at this

theorem cleanLine_drop (line : List Char) (m : Nat)
    (hm : firstMarkerIdx line = some m)
    (hdrop : trimSpace (line.take m) = []) : cleanLine line = [] := by
  unfold firstMarkerIdx at hm
  unfold cleanLine stripLineComment
  cases h2 : strIndex line ['/', '/'] with
  | some a =>
    cases h1 : strIndex line ['#'] with
    | some b =>
      rw [h2, h1] at hm
      obtain rfl : min a b = m := by simpa using hm
      dsimp only
      rcases Nat.le_total a b with hab | hba
      · rw [Nat.min_eq_left hab] at hdrop
        rw [if_pos hdrop]
        have hsp : ∀ c ∈ line.take a, goIsSpace c :=
          (trimSpace_eq_nil_iff _).1 hdrop
        rw [strIndex_hash_none_of_space hsp]
        dsimp only
        exact (trimSpace_eq_nil_iff _).2 hsp
      · rw [Nat.min_eq_right hba] at hdrop
        have hlt : b < a ∨ b = a := by omega
        rcases hlt with hlt | rfl
        · have hma : trimSpace (line.take a) ≠ [] := by
            intro hall2
            have hall := (trimSpace_eq_nil_iff _).1 hall2
            have := hall '#' (mem_take_of_strIndex h1 hlt)
            simp [goIsSpace] at this
          rw [if_neg hma, h1]
          dsimp only
          rw [if_pos hdrop]
          exact hdrop
        · rw [if_pos hdrop]
          have hsp : ∀ c ∈ line.take b, goIsSpace c :=
            (trimSpace_eq_nil_iff _).1 hdrop
          rw [strIndex_hash_none_of_space hsp]
          dsimp only
          exact (trimSpace_eq_nil_iff _).2 hsp
    | none =>
      rw [h2, h1] at hm
      obtain rfl : a = m := by simpa using hm
      dsimp only
      rw [if_pos hdrop]
      have hsp : ∀ c ∈ line.take a, goIsSpace c :=
        (trimSpace_eq_nil_iff _).1 hdrop
      rw [strIndex_hash_none_of_space hsp]
      dsimp only
      exact (trimSpace_eq_nil_iff _).2 hsp
  | none =>
    cases h1 : strIndex line ['#'] with
    | some b =>
      rw [h2, h1] at hm
      obtain rfl : b = m := by simpa using hm
      dsimp only
      rw [h1]
      dsimp only
      rw [if_pos hdrop]
      exact hdrop
    | none => rw [h2, h1] at hm; exact absurd hm (by simp)

theorem cleanLine_keep (line : List Char) (m : Nat)
    (hm : firstMarkerIdx line = some m)
    (hkeep : trimSpace (line.take m) ≠ []) :
    cleanLine line = trimSpace line := by
  unfold firstMarkerIdx at hm
  unfold cleanLine stripLineComment
  cases h2 : strIndex line ['/', '/'] with
  | some a =>
    cases h1 : strIndex line ['#'] with
    | some b =>
      rw [h2, h1] at hm
      obtain rfl : min a b = m := by simpa using hm
      have ha : trimSpace (line.take a) ≠ [] :=
        trim_take_mono hkeep (Nat.min_le_left a b)
      have hb : trimSpace (line.take b) ≠ [] :=
        trim_take_mono hkeep (Nat.min_le_right a b)
      dsimp only
      rw [if_neg ha, h1]
      dsimp only
      rw [if_neg hb]
    | none =>
      rw [h2, h1] at hm
      obtain rfl : a = m := by simpa using hm
      dsimp only
      rw [if_neg hkeep, h1]
  | none =>
    cases h1 : strIndex line ['#'] with
    | some b =>
      rw [h2, h1] at hm
      obtain rfl : b = m := by simpa using hm
      dsimp only
      rw [h1]
      dsimp only
      rw [if_neg hkeep]
    | none => rw [h2, h1] at hm; exact absurd hm (by simp)

theorem fields_ne_nil {t l : List Char} (h : t ∈ fields l) : t ≠ [] := by
  unfold fields at h
  have := List.of_mem_filter h
  simpa [List.isEmpty_iff] using this

theorem mem_expandParts {e : Bool} {parts : List (List Char)} {t : List Char} :
    t ∈ expandParts e parts ↔
      (t ∈ parts ∧ t ≠ []) ∨
      (e = true ∧ ∃ p ∈ parts, p ≠ [] ∧ listStartsWith ['*', '.'] p ∧
        t = p.drop 2) := by
  unfold expandParts
  rw [List.mem_flatMap]
  constructor
  · rintro ⟨p, hp, hmem⟩
    by_cases hne : p ≠ []
    · rw [if_pos hne] at hmem
      rcases List.mem_cons.1 hmem with rfl | h2
      · exact Or.inl ⟨hp, hne⟩
      · by_cases hcond : (e && listStartsWith ['*', '.'] p) = true
        · rw [if_pos hcond] at h2
          rcases (Bool.and_eq_true e (listStartsWith ['*', '.'] p)) ▸ hcond
            with ⟨he, hsw⟩
          obtain rfl : t = p.drop 2 := by simpa using h2
          exact Or.inr ⟨he, p, hp, hne, hsw, rfl⟩
        · rw [if_neg hcond] at h2
          simp at h2
    · rw [if_neg hne] at hmem
      simp at hmem
  · rintro (⟨hp, hne⟩ | ⟨rfl, p, hp, hpne, hsw, rfl⟩)
    · exact ⟨t, hp, by rw [if_pos hne]; exact List.mem_cons_self _ _⟩
    · refine ⟨p, hp, ?_⟩
      rw [if_pos hpne, hsw]
      simp

theorem parseListChars_eq (input : List Char) (e : Bool) :
    parseListChars input e = expandParts e (tokensOf input) := by
  unfold parseListChars tokensOf cleanLine
  by_cases h : input = []
  · subst h
    rw [if_pos rfl]
    simp [splitOnChar, joinSpace, stripLineComment, strIndex, trimSpace,
      replaceChar, fields, List.splitOnP_nil, expandParts]
  · rw [if_neg h]

theorem mem_parse_of_token {input t : List Char} (h : t ∈ tokensOf input)
    (e : Bool) : t ∈ parseListChars input e := by
  rw [parseListChars_eq, mem_expandParts]
  exact Or.inl ⟨h, fields_ne_nil (by simpa [tokensOf] using h)⟩

theorem mem_parse_base_of_wildcard {input b : List Char}
    (h : ('*' :: '.' :: b) ∈ tokensOf input) :
    b ∈ parseListChars input true := by
  rw [parseListChars_eq, mem_expandParts]
  exact Or.inr ⟨rfl, _, h, by simp, by simp [listStartsWith], by simp⟩

theorem nil_mem_parse_iff {input : List Char} {e : Bool} :
    [] ∈ parseListChars input e ↔ e = true ∧ ['*', '.'] ∈ tokensOf input := by
  rw [parseListChars_eq, mem_expandParts]
  constructor
  · rintro (⟨h, hne⟩ | ⟨he, p, hp, hpne, hsw, hdrop⟩)
    · exact absurd rfl hne
    · obtain ⟨post, rfl⟩ := (listStartsWith_iff _ _).1 hsw
      obtain rfl : post = [] := by simpa using hdrop.symm
      exact ⟨he, by simpa using hp⟩
  · rintro ⟨rfl, h⟩
    exact Or.inr ⟨rfl, _, h, by simp, by simp [listStartsWith], by simp⟩

theorem mem_map_mk_iff {l : List (List Char)} {s : String} :
    s ∈ l.map (fun t => String.mk t) ↔ s.data ∈ l := by
  rw [List.mem_map]
  constructor
  · rintro ⟨t, ht, rfl⟩; exact ht
  · intro h; exact ⟨s.data, h, rfl⟩

theorem mem_parseStringToList_iff {input : String} {e : Bool} {s : String} :
    s ∈ parseStringToList input e ↔ s.data ∈ parseListChars input.data e :=
  mem_map_mk_iff

theorem mem_tokensOfStr_iff {input : String} {s : String} :
    s ∈ tokensOfStr input ↔ s.data ∈ tokensOf input.data :=
  mem_map_mk_iff

/-- **C5.**  In textual list parsing, an input line whose content
before the first `//` or `#`, after trimming whitespace, is empty
cleans to the empty line and is therefore dropped entirely, while a
line with non-comment content before a comment marker keeps its whole
text (up to the surrounding whitespace trim): the inline marker is not
interpreted as a comment splice.  Concretely, parsing the line
`value # comment` keeps all of `value`, `#`, `comment` as tokens
rather than truncating at the `#`. -/
theorem parse_comment_line_semantics :
    (∀ (line : List Char) (m : Nat), firstMarkerIdx line = some m →
      (trimSpace (line.take m) = [] → cleanLine line = []) ∧
      (trimSpace (line.take m) ≠ [] → cleanLine line = trimSpace line)) ∧
    parseStringToList "value # comment" false = ["value", "#", "comment"] := by
  refine ⟨fun line m hm => ⟨cleanLine_drop line m hm, cleanLine_keep line m hm⟩, ?_⟩
  decide

/-- Witness for C5 at concrete inputs: the comment-only line `  # note`
cleans to nothing, and the line `value # comment` cleans to itself
trimmed. -/
theorem parse_comment_line_semantics_witness :
    firstMarkerIdx "  # note".data = some 2 ∧ cleanLine "  # note".data = [] ∧
    firstMarkerIdx "value # comment".data = some 6 ∧
    cleanLine "value # comment".data = trimSpace "value # comment".data := by
  refine ⟨by decide, ?_, by decide, ?_⟩
  · exact (parse_comment_line_semantics.1 "  # note".data 2 (by decide)).1
      (by decide)
  · exact (parse_comment_line_semantics.1 "value # comment".data 6
      (by decide)).2 (by decide)

/-- **C6 counterexample.**  Wildcard expansion is applied only to the
whitespace-separated field tokens, not recursively to the entries it
emits, and the token `*.` emits an empty string: the rule with hosts
`*.*.com` compiles to `["*.*.com", "*.com"]`, whose parsed entry
`*.com` is of the form `*.x` yet is not accompanied by `com`; and the
rule with hosts `*.` compiles to a parsed host list containing the
empty string. -/
theorem preParse_wildcard_counterexample :
    preParsedHosts (fun _ => none) { hosts := "*.*.com" } {} =
        ["*.*.com", "*.com"] ∧
    "*.com" ∈ preParsedHosts (fun _ => none) { hosts := "*.*.com" } {} ∧
    ("*.com").data = '*' :: '.' :: ("com").data ∧
    "com" ∉ preParsedHosts (fun _ => none) { hosts := "*.*.com" } {} ∧
    "" ∈ preParsedHosts (fun _ => none) { hosts := "*." } {} := by decide

/-- **C6 (amended).**  After rule compilation, every whitespace-separated
host *token* of the form `*.x` is accompanied by the bare base domain
`x` in the same rule's parsed host list (entries emitted by the
expansion itself are not re-expanded); `parsed_ips` and `parsed_urls`
never contain the empty string, and `parsed_hosts` contains the empty
string only when some host token is exactly `*.`. -/
theorem preParse_wildcard_expansion_amended
    (fetch : String → Option String) (rule ext : RuleBaseConfig) :
    (∀ t ∈ hostTokens fetch rule ext, listStartsWith ['*', '.'] t.data →
        t ∈ preParsedHosts fetch rule ext ∧
        String.mk (t.data.drop 2) ∈ preParsedHosts fetch rule ext) ∧
    "" ∉ preParsedIps fetch rule ext ∧
    "" ∉ preParsedURLs fetch rule ext ∧
    ("*." ∉ hostTokens fetch rule ext → "" ∉ preParsedHosts fetch rule ext) := by
  have hnil : ∀ (input : String), ("" : String) ∉ parseStringToList input false := by
    intro input hmem
    rw [mem_parseStringToList_iff] at hmem
    have := nil_mem_parse_iff.1 hmem
    simp at this
  have hload : ∀ (src : String), ("" : String) ∉ loadExternalRuleList fetch src false := by
    intro src hmem
    unfold loadExternalRuleList at hmem
    by_cases hs : src = ""
    · rw [if_pos hs] at hmem; simp at hmem
    · rw [if_neg hs] at hmem
      cases hf : fetch src with
      | none => rw [hf] at hmem; simp at hmem
      | some content => rw [hf] at hmem; exact hnil content hmem
  have htask : ∀ (inline sources : List String),
      ("" : String) ∉ inline → ("" : String) ∉ runLoadTask fetch inline sources false := by
    intro inline sources hinl hmem
    unfold runLoadTask at hmem
    rcases List.mem_append.1 hmem with h | h
    · exact hinl h
    · obtain ⟨src, -, hmem2⟩ := List.mem_flatMap.1 h
      by_cases hs : src = ""
      · rw [if_pos hs] at hmem2; simp at hmem2
      · rw [if_neg hs] at hmem2; exact hload src hmem2
  refine ⟨?_, ?_, ?_, ?_⟩
  · intro t ht hsw
    obtain ⟨post, hpost⟩ := (listStartsWith_iff _ _).1 hsw
    have key : ∀ (input : String), t.data ∈ tokensOf input.data →
        t ∈ parseStringToList input true ∧
        String.mk (t.data.drop 2) ∈ parseStringToList input true := by
      intro input htok
      constructor
      · rw [mem_parseStringToList_iff]
        exact mem_parse_of_token htok true
      · rw [mem_parseStringToList_iff]
        show (t.data.drop 2) ∈ _
        rw [hpost]
        have : ('*' :: '.' :: post) ∈ tokensOf input.data := by
          simpa [hpost] using htok
        simpa using mem_parse_base_of_wildcard this
    unfold hostTokens at ht
    rcases List.mem_append.1 ht with h | h
    · have htok := mem_tokensOfStr_iff.1 h
      obtain ⟨h1, h2⟩ := key _ htok
      exact ⟨List.mem_append.2 (Or.inl h1), List.mem_append.2 (Or.inl h2)⟩
    · obtain ⟨src, hsrc, hmem2⟩ := List.mem_flatMap.1 h
      by_cases hs : src = ""
      · rw [if_pos hs] at hmem2; simp at hmem2
      · rw [if_neg hs] at hmem2
        cases hf : fetch src with
        | none => rw [hf] at hmem2; simp at hmem2
        | some content =>
          rw [hf] at hmem2
          have htok := mem_tokensOfStr_iff.1 hmem2
          obtain ⟨h1, h2⟩ := key _ htok
          have hsub : ∀ s : String, s ∈ parseStringToList content true →
              s ∈ preParsedHosts fetch rule ext := by
            intro s hmem3
            refine List.mem_append.2 (Or.inr (List.mem_flatMap.2 ⟨src, hsrc, ?_⟩))
            rw [if_neg hs]
            unfold loadExternalRuleList
            rw [if_neg hs, hf]
            exact hmem3
          exact ⟨hsub t h1, hsub _ h2⟩
  · exact htask _ _ (hnil _)
  · exact htask _ _ (hnil _)
  · intro hstar hmem
    unfold preParsedHosts runLoadTask at hmem
    rcases List.mem_append.1 hmem with h | h
    · rw [mem_parseStringToList_iff] at h
      have := nil_mem_parse_iff.1 h
      apply hstar
      unfold hostTokens
      refine List.mem_append.2 (Or.inl ?_)
      rw [mem_tokensOfStr_iff]
      exact this.2
    · obtain ⟨src, hsrc, hmem2⟩ := List.mem_flatMap.1 h
      by_cases hs : src = ""
      · rw [if_pos hs] at hmem2; simp at hmem2
      · rw [if_neg hs] at hmem2
        unfold loadExternalRuleList at hmem2
        rw [if_neg hs] at hmem2
        cases hf : fetch src with
        | none => rw [hf] at hmem2; simp at hmem2
        | some content =>
          rw [hf] at hmem2
          rw [mem_parseStringToList_iff] at hmem2
          have := nil_mem_parse_iff.1 hmem2
          apply hstar
          unfold hostTokens
          refine List.mem_append.2 (Or.inr (List.mem_flatMap.2 ⟨src, hsrc, ?_⟩))
          rw [if_neg hs, hf]
          rw [mem_tokensOfStr_iff]
          exact this.2

theorem byteAnd_255 {a : Nat} (h : a < 256) : byteAnd a 255 = a := by
  show a &&& 255 = a
  apply Nat.eq_of_testBit_eq
  intro i
  rw [Nat.testBit_and]
  by_cases hi : i < 8
  · have h255 : Nat.testBit 255 i = true := by
      interval_cases i <;> decide
    simp [h255]
  · have hz : Nat.testBit a i = false := by
      apply Nat.testBit_lt_two_pow
      calc a < 256 := h
        _ = 2 ^ 8 := by norm_num
        _ ≤ 2 ^ i := Nat.pow_le_pow_right (by norm_num) (by omega)
    simp [hz]

theorem zipWith_byteAnd_255 (x : List Nat) (h : ∀ a ∈ x, a < 256) :
    List.zipWith byteAnd x (List.replicate x.length 255) = x := by
  induction x with
  | nil => rfl
  | cons a t ih =>
    simp only [List.length_cons, List.replicate_succ, List.zipWith_cons_cons]
    rw [byteAnd_255 (h a (List.mem_cons_self a t)),
      ih fun b hb => h b (List.mem_cons_of_mem a hb)]

/-- The `/32` host network on `1.2.3.4` contains exactly the IPv4
address `1.2.3.4` (in either its 4-byte or 16-byte form). -/
theorem host_net_contains_iff (ip : GoIP) (hv : validGoIP ip = true) :
    (ipNetContains ⟨[1, 2, 3, 4], [255, 255, 255, 255]⟩ ip = true ↔
      ipTo4 ip = some [1, 2, 3, 4]) := by
  unfold validGoIP at hv
  rw [decide_eq_true_eq] at hv
  obtain ⟨hlen, hbytes⟩ := hv
  have hbytes2 : ∀ a ∈ ip, a < 256 := by
    intro a ha
    have := List.all_eq_true.1 hbytes a ha
    simpa using this
  have hnn : networkNumberAndMask ⟨[1, 2, 3, 4], [255, 255, 255, 255]⟩ =
      some ([1, 2, 3, 4], [255, 255, 255, 255]) := by decide
  unfold ipNetContains
  rw [hnn]
  dsimp only
  rw [decide_eq_true_eq]
  cases hip4 : ipTo4 ip with
  | some x =>
    dsimp only
    have hx : x.length = 4 ∧ ∀ a ∈ x, a < 256 := by
      unfold ipTo4 at hip4
      by_cases hl4 : ip.length = 4
      · rw [if_pos hl4] at hip4
        obtain rfl : ip = x := by simpa using hip4
        exact ⟨hl4, hbytes2⟩
      · rw [if_neg hl4] at hip4
        by_cases hl16 : ip.length = 16 ∧ ip.take 12 = v4InV6Head
        · rw [if_pos hl16] at hip4
          obtain rfl : ip.drop 12 = x := by simpa using hip4
          refine ⟨by simp [hl16.1], fun a ha => hbytes2 a (List.drop_subset 12 ip ha)⟩
        · rw [if_neg hl16] at hip4; simp at hip4
    have hz : List.zipWith byteAnd x [255, 255, 255, 255] = x := by
      have := zipWith_byteAnd_255 x hx.2
      rwa [hx.1] at this
    have hz2 : List.zipWith byteAnd [1, 2, 3, 4] [255, 255, 255, 255] =
        [1, 2, 3, 4] := by decide
    rw [hz, hz2]
    constructor
    · rintro ⟨-, rfl⟩; rfl
    · rintro h; obtain rfl : x = [1, 2, 3, 4] := by simpa using h
      exact ⟨hx.1, rfl⟩
  | none =>
    dsimp only
    have hl16 : ip.length = 16 := by
      rcases hlen with h | h
      · exfalso; unfold ipTo4 at hip4; rw [if_pos h] at hip4; simp at hip4
      · exact h
    constructor
    · rintro ⟨habs, -⟩; simp at habs; omega
    · rintro h; simp at h

/-- **C7.**  `GetCIDRNet` promotes a bare IP without a `/` suffix by
appending `/32` exactly when the parsed address is IPv4 in the sense
of `net.IP.To4` (which holds for dotted-quad text) and `/128`
otherwise (textual IPv6 addresses), handing the result to
`net.ParseCIDR`; `GetCIDRNet "1.2.3.4"` is a network containing
exactly the address `1.2.3.4`, and `GetCIDRNet "10.0.0.0/8"` contains
`10.1.2.3` but not `11.0.0.1`. -/
theorem getCIDRNet_bare_ip_promotion :
    (∀ (s : String) (ip : GoIP), s.data.contains '/' = false →
      goParseIP s.data = some ip →
      getCIDRNet s = goParseCIDR (s.data ++
        (if (ipTo4 ip).isSome then ['/', '3', '2'] else ['/', '1', '2', '8']))) ∧
    (∃ n, getCIDRNet "1.2.3.4" = some n ∧
      ∀ ip : GoIP, validGoIP ip = true →
        (ipNetContains n ip = true ↔ ipTo4 ip = some [1, 2, 3, 4])) ∧
    (∃ n, getCIDRNet "10.0.0.0/8" = some n ∧
      ipNetContains n [10, 1, 2, 3] = true ∧
      ipNetContains n [11, 0, 0, 1] = false) := by
  refine ⟨?_, ?_, ?_⟩
  · intro s ip hslash hip
    unfold getCIDRNet
    rw [hslash]
    simp only [Bool.false_eq_true, if_false]
    rw [hip]
    dsimp only
    by_cases h4 : (ipTo4 ip).isSome
    · rw [if_pos h4, if_pos h4]
    · rw [if_neg h4, if_neg h4]
  · refine ⟨⟨[1, 2, 3, 4], [255, 255, 255, 255]⟩, by decide, ?_⟩
    exact host_net_contains_iff
  · exact ⟨⟨[10, 0, 0, 0], [255, 0, 0, 0]⟩, by decide, by decide, by decide⟩

theorem guard_any {α : Type} (l : List α) (p : α → Bool) :
    (decide (l.length > 0) && l.any p) = l.any p := by
  cases l <;> simp

theorem guard_ipCategory (env : MatchEnv) (l : List String) (host : String) :
    (decide (l.length > 0) && ipCategoryMatches env l host) =
      ipCategoryMatches env l host := by
  cases l <;> simp [ipCategoryMatches]

theorem ipCategoryMatches_eq_spec (env : MatchEnv) (l : List String)
    (host : String) :
    ipCategoryMatches env l host =
      (!(targetIPsOf env host).isEmpty &&
        l.any fun p => ipRuleMatchesTargets env p (targetIPsOf env host)) := by
  unfold ipCategoryMatches
  cases h : targetIPsOf env host <;> simp [h]

theorem evalRuleMatch_eq_spec (env : MatchEnv) (rule : RuleConfig)
    (host fullURL : String) :
    evalRuleMatch env rule host fullURL =
      (match specFirstMatch env rule host fullURL with
       | some c => (true, categoryName (some c))
       | none => (false, "")) := by
  unfold evalRuleMatch
  rw [guard_any, guard_any, guard_ipCategory, ipCategoryMatches_eq_spec]
  unfold specFirstMatch
  by_cases h1 : (rule.parsedURLs.any fun urlRule =>
      matchesURLPattern env urlRule fullURL)
  · simp [List.find?, specCategoryHits, h1, categoryName]
  · by_cases h2 : (rule.parsedHosts.any fun hostRule =>
        matchesGlob env hostRule host)
    · simp [List.find?, specCategoryHits, h1, h2, categoryName]
    · by_cases h3 : (!(targetIPsOf env host).isEmpty &&
          rule.parsedIps.any fun p =>
            ipRuleMatchesTargets env p (targetIPsOf env host))
      · simp [List.find?, specCategoryHits, h1, h2, h3, categoryName]
      · simp [List.find?, specCategoryHits, h1, h2, h3, categoryName]

theorem evalRuleMatch_fst (env : MatchEnv) (rule : RuleConfig)
    (host fullURL : String) :
    (evalRuleMatch env rule host fullURL).1 =
      (specFirstMatch env rule host fullURL).isSome := by
  rw [evalRuleMatch_eq_spec]
  cases specFirstMatch env rule host fullURL <;> rfl

theorem evalRuleMatch_snd (env : MatchEnv) (rule : RuleConfig)
    (host fullURL : String) :
    (evalRuleMatch env rule host fullURL).2 =
      categoryName (specFirstMatch env rule host fullURL) := by
  rw [evalRuleMatch_eq_spec]
  cases specFirstMatch env rule host fullURL <;> rfl

theorem ruleFires_eq_spec (env : MatchEnv) (rule : RuleConfig)
    (host fullURL : String) :
    ruleFires env rule host fullURL = specRuleFires env rule host fullURL := by
  unfold ruleFires specRuleFires
  dsimp only
  rw [evalRuleMatch_fst]
  cases hn : rule.not
  · simp
  · simp [Bool.xor_comm]

theorem evaluateRulesFrom_eq_spec (env : MatchEnv) (defaultProxy : String)
    (rules : List RuleConfig) (host fullURL : String) :
    evaluateRulesFrom env defaultProxy rules host fullURL =
      match rules.find? (fun rule => specRuleFires env rule host fullURL) with
      | some rule =>
        ⟨rule.proxy, if rule.name = "" then "unnamed rule" else rule.name,
          categoryName (specFirstMatch env rule host fullURL)⟩
      | none => ⟨defaultProxy, "default", "default"⟩ := by
  induction rules with
  | nil => rfl
  | cons rule rest ih =>
    unfold evaluateRulesFrom
    rw [ruleFires_eq_spec]
    simp only [List.find?]
    cases hf : specRuleFires env rule host fullURL
    · rw [if_neg (by simp [hf])]
      exact ih
    · rw [if_pos rfl]
      rw [evalRuleMatch_snd]
      rfl

/-- **C1.**  For every ruleset, request input and oracle behavior of
the glob matcher and resolver, `evaluateRules` equals the
specification's sequential walk: rules in configured order, categories
tested in the order urls, hosts, ips with the first match winning,
negation applied, the first firing rule yielding its proxy key, its
name (or `"unnamed rule"`) and the matching category, and the default
disposition `{default_proxy_key, "default", "default"}` when no rule
fires. -/
theorem evaluateRules_eq_specDecision (env : MatchEnv) (cfg : ProxyConfig)
    (host fullURL : String) :
    evaluateRules env cfg host fullURL = specDecision env cfg host fullURL := by
  unfold evaluateRules specDecision
  exact evaluateRulesFrom_eq_spec env cfg.defaultProxy cfg.rules host fullURL

/-- **C3.**  For every rule with at least one parsed pattern (the
hypothesis mirrors the claim; the match computation is independent of
the negation flag, so it is not actually needed) and every input, the
rule with `negate = true` fires exactly when the identical rule with
`negate = false` does not. -/
theorem negated_rule_fires_iff_not (env : MatchEnv) (rule : RuleConfig)
    (host fullURL : String)
    (hpat : rule.parsedIps ++ rule.parsedHosts ++ rule.parsedURLs ≠ []) :
    ruleFires env { rule with not := true } host fullURL =
      !(ruleFires env { rule with not := false } host fullURL) := by
  unfold ruleFires
  rfl

/-- Witness for C3: a one-pattern rule on a non-matching input fires
negated and does not fire un-negated. -/
theorem negated_rule_fires_iff_not_witness :
    (let rule : RuleConfig := { name := "r", proxy := "p", parsedHosts := ["x.com"] }
     rule.parsedIps ++ rule.parsedHosts ++ rule.parsedURLs ≠ [] ∧
     ruleFires ⟨fun _ _ => false, fun _ => none⟩ { rule with not := true }
         "a.com" "http://a.com/" =
       !(ruleFires ⟨fun _ _ => false, fun _ => none⟩ { rule with not := false }
         "a.com" "http://a.com/")) := by
  refine ⟨by decide, ?_⟩
  exact negated_rule_fires_iff_not ⟨fun _ _ => false, fun _ => none⟩
    { name := "r", proxy := "p", parsedHosts := ["x.com"] }
    "a.com" "http://a.com/" (by decide)

/-- **C4 counterexample.**  A rule that fires only through negation
returns the zero `matchType` `""`, not `"host"`: with a single negated
host rule and a request matching nothing, `evaluateRules` returns
`{proxy := "p", ruleName := "r", matchType := ""}`. -/
theorem negation_matchType_counterexample :
    evalRuleMatch ⟨fun _ _ => false, fun _ => none⟩
        { name := "r", proxy := "p", not := true, parsedHosts := ["x.com"] }
        "a.com" "http://a.com/" = (false, "") ∧
    evaluateRules ⟨fun _ _ => false, fun _ => none⟩
        { defaultProxy := "direct",
          proxies := [("direct", ""), ("p", "http://up:1")],
          rules := [{ name := "r", proxy := "p", not := true,
                      parsedHosts := ["x.com"] }] }
        "a.com" "http://a.com/" = ⟨"p", "r", ""⟩ ∧
    (evaluateRules ⟨fun _ _ => false, fun _ => none⟩
        { defaultProxy := "direct",
          proxies := [("direct", ""), ("p", "http://up:1")],
          rules := [{ name := "r", proxy := "p", not := true,
                      parsedHosts := ["x.com"] }] }
        "a.com" "http://a.com/").matchType ≠ "host" := by decide

theorem evalRuleMatch_false_snd (env : MatchEnv) (rule : RuleConfig)
    (host fullURL : String)
    (h : (evalRuleMatch env rule host fullURL).1 = false) :
    (evalRuleMatch env rule host fullURL).2 = "" := by
  have he := evalRuleMatch_eq_spec env rule host fullURL
  cases hm : specFirstMatch env rule host fullURL with
  | none => rw [he, hm]
  | some c => rw [he, hm] at h; exact Bool.noConfusion h

theorem matchType_mem_evaluateRulesFrom (env : MatchEnv)
    (defaultProxy : String) (rules : List RuleConfig) (host fullURL : String) :
    (evaluateRulesFrom env defaultProxy rules host fullURL).matchType ∈
      (["url", "host", "ip", "default", ""] : List String) := by
  induction rules with
  | nil => simp [evaluateRulesFrom]
  | cons rule rest ih =>
    unfold evaluateRulesFrom
    by_cases hf : ruleFires env rule host fullURL
    · rw [if_pos hf]
      show (evalRuleMatch env rule host fullURL).2 ∈ _
      rw [evalRuleMatch_snd]
      cases hm : specFirstMatch env rule host fullURL with
      | none => simp [categoryName]
      | some c => cases c <;> simp [categoryName]
    · rw [if_neg hf]
      exact ih

/-- **C4 (amended).**  A rule that fires with `negate = true` and no
positive category match yields `matchType = ""` (the zero value), not
`"host"` — so `matchType` lies in `{url, host, ip, default, ""}` — and
on a full cache miss every result whose `matchType` is neither `"url"`
nor `"ip"` (which includes every negation-only fire) is memoized in
the host decision cache keyed by the request's host. -/
theorem negation_fire_empty_matchType_cached_under_host (env : MatchEnv)
    (cfg : ProxyConfig) (caches : DecisionCaches) (host fullURL : String) :
    (∀ rule : RuleConfig, rule.not = true →
      (evalRuleMatch env rule host fullURL).1 = false →
      ruleFires env rule host fullURL = true ∧
      (evalRuleMatch env rule host fullURL).2 = "") ∧
    (evaluateRules env cfg host fullURL).matchType ∈
      (["url", "host", "ip", "default", ""] : List String) ∧
    (cacheGet caches.urlCache fullURL = none →
     cacheGet caches.hostCache host = none →
     cacheGet caches.ipCache host = none →
     (evaluateRules env cfg host fullURL).matchType ≠ "url" →
     (evaluateRules env cfg host fullURL).matchType ≠ "ip" →
     getProxyDecision env cfg caches host fullURL =
       (evaluateRules env cfg host fullURL,
        { caches with
          hostCache :=
            cacheAdd caches.hostCache host (evaluateRules env cfg host fullURL) })) := by
  refine ⟨?_, ?_, ?_⟩
  · intro rule hnot hm
    unfold ruleFires
    dsimp only
    rw [hnot, hm]
    exact ⟨rfl, evalRuleMatch_false_snd env rule host fullURL hm⟩
  · exact matchType_mem_evaluateRulesFrom env cfg.defaultProxy cfg.rules
      host fullURL
  · intro hu hh hi hnu hni
    unfold getProxyDecision
    rw [hu, hh, hi]
    dsimp only
    rw [if_neg hnu, if_neg hni]

/-- Witness for the amended C4: the negated rule of the C4 setting
fires with `matchType = ""` and is inserted into the host cache under
`a.com`. -/
theorem negation_fire_cached_under_host_witness :
    cacheGet (DecisionCaches.urlCache {}) "http://a.com/" = none ∧
    getProxyDecision ⟨fun _ _ => false, fun _ => none⟩
        { defaultProxy := "direct",
          proxies := [("direct", ""), ("p", "http://up:1")],
          rules := [{ name := "r", proxy := "p", not := true,
                      parsedHosts := ["x.com"] }] }
        {} "a.com" "http://a.com/" =
      (⟨"p", "r", ""⟩,
       { urlCache := [], hostCache := [("a.com", ⟨"p", "r", ""⟩)],
         ipCache := [] }) := by
  refine ⟨by decide, ?_⟩
  have h := (negation_fire_empty_matchType_cached_under_host
    ⟨fun _ _ => false, fun _ => none⟩
    { defaultProxy := "direct",
      proxies := [("direct", ""), ("p", "http://up:1")],
      rules := [{ name := "r", proxy := "p", not := true,
                  parsedHosts := ["x.com"] }] }
    {} "a.com" "http://a.com/").2.2
    (by decide) (by decide) (by decide) (by decide) (by decide)
  rw [h]
  decide

/-- Witness for C7 at concrete inputs: the bare IPv4 `1.2.3.4` is
promoted to `/32`, the bare IPv6 `::1` to `/128`, and the `1.2.3.4`
host network contains the 16-byte form of `1.2.3.4`. -/
theorem getCIDRNet_bare_ip_promotion_witness :
    getCIDRNet "1.2.3.4" = goParseCIDR ("1.2.3.4".data ++ ['/', '3', '2']) ∧
    getCIDRNet "::1" = goParseCIDR ("::1".data ++ ['/', '1', '2', '8']) ∧
    ipNetContains ⟨[1, 2, 3, 4], [255, 255, 255, 255]⟩
      [0, 0, 0, 0, 0, 0, 0, 0, 0, 0, 255, 255, 1, 2, 3, 4] = true := by
  refine ⟨?_, ?_, ?_⟩
  · have := getCIDRNet_bare_ip_promotion.1 "1.2.3.4"
      [0, 0, 0, 0, 0, 0, 0, 0, 0, 0, 255, 255, 1, 2, 3, 4] (by decide) (by decide)
    simpa using this
  · have := getCIDRNet_bare_ip_promotion.1 "::1"
      [0, 0, 0, 0, 0, 0, 0, 0, 0, 0, 0, 0, 0, 0, 0, 1] (by decide) (by decide)
    simpa using this
  · have hmem := getCIDRNet_bare_ip_promotion.2.1
    obtain ⟨n, hn, hcont⟩ := hmem
    obtain rfl : n = ⟨[1, 2, 3, 4], [255, 255, 255, 255]⟩ := by
      have : some n = some ⟨[1, 2, 3, 4], [255, 255, 255, 255]⟩ := by
        rw [← hn]; decide
      simpa using this
    exact (hcont [0, 0, 0, 0, 0, 0, 0, 0, 0, 0, 255, 255, 1, 2, 3, 4]
      (by decide)).2 (by decide)

/-- **C2 counterexample.**  A body-write failure is not covered by the
cache fallback: with a 200 response, a pre-existing cache file and a
failing `io.Copy`, `downloadWithClient` returns an error instead of
using the cached file. -/
theorem download_cache_fallback_counterexample :
    downloadWithClient (.response 200) ⟨true, true, false⟩ "http://u/list.txt"
        "cache/list.txt" = .error "failed to write cache file" ∧
    downloadWithClient (.response 200) ⟨true, true, false⟩ "http://u/list.txt"
        "cache/list.txt" ≠ .ok "cache/list.txt" := by
  refine ⟨rfl, ?_⟩
  intro h
  rw [show downloadWithClient (.response 200) ⟨true, true, false⟩
      "http://u/list.txt" "cache/list.txt" =
      .error "failed to write cache file" from rfl] at h
  exact Except.noConfusion h

/-- **C2 (amended).**  The cache fallback of `downloadWithClient`
covers the HTTP transport error and non-200 status cases: there, an
existing cache file is used with no error.  A failure to write the
response body (`os.Create` or `io.Copy`) instead returns an error even
when a cached file exists. -/
theorem download_cache_fallback_amended (get : HTTPGetResult)
    (w : CacheFileWorld) (downloadURL cacheFile : String) :
    ((get = .transportError ∨ ∃ sc, get = .response sc ∧ sc ≠ 200) →
      w.cacheExists = true →
      downloadWithClient get w downloadURL cacheFile = .ok cacheFile) ∧
    (∀ sc, get = .response sc → sc = 200 →
      (w.createOk = false ∨ w.copyOk = false) →
      ∃ e, downloadWithClient get w downloadURL cacheFile = .error e) := by
  constructor
  · rintro (rfl | ⟨sc, rfl, hsc⟩) hc
    · simp [downloadWithClient, hc]
    · simp [downloadWithClient, hsc, hc]
  · rintro sc rfl rfl hbad
    by_cases hcr : w.createOk
    · have hcopy : w.copyOk = false := by
        rcases hbad with h | h
        · rw [h] at hcr; exact Bool.noConfusion hcr
        · exact h
      exact ⟨"failed to write cache file",
        by simp [downloadWithClient, hcr, hcopy]⟩
    · exact ⟨"failed to create cache file", by simp [downloadWithClient, hcr]⟩

/-- Witness for the amended C2: transport-error and 404 fetches fall
back to the cache; a copy failure after a 200 yields an error. -/
theorem download_cache_fallback_amended_witness :
    downloadWithClient .transportError ⟨true, true, true⟩ "http://u" "cf" =
      .ok "cf" ∧
    downloadWithClient (.response 404) ⟨true, true, true⟩ "http://u" "cf" =
      .ok "cf" ∧
    ∃ e, downloadWithClient (.response 200) ⟨true, true, false⟩ "http://u" "cf" =
      .error e := by
  refine ⟨?_, ?_, ?_⟩
  · exact (download_cache_fallback_amended .transportError ⟨true, true, true⟩
      "http://u" "cf").1 (Or.inl rfl) rfl
  · exact (download_cache_fallback_amended (.response 404) ⟨true, true, true⟩
      "http://u" "cf").1 (Or.inr ⟨404, rfl, by decide⟩) rfl
  · exact (download_cache_fallback_amended (.response 200) ⟨true, true, false⟩
      "http://u" "cf").2 200 rfl rfl (Or.inr rfl)

theorem httpConnectTunnel_sent (addr : String) (user : Option GoUserinfo)
    (w : TunnelWorld) :
    (httpConnectTunnel addr user w).sent = connectRequestString addr user := by
  rcases w with ⟨wo, rs⟩
  unfold httpConnectTunnel
  cases wo with
  | false => simp
  | true =>
    rcases rs with - | sc
    · simp
    · by_cases hsc : sc = 200
      · subst hsc; simp
      · simp [hsc]

theorem httpConnectTunnel_ok_iff (addr : String) (user : Option GoUserinfo)
    (w : TunnelWorld) :
    (httpConnectTunnel addr user w).result = .ok () ↔
      w.writeOk = true ∧ w.readStatus = some 200 := by
  rcases w with ⟨wo, rs⟩
  unfold httpConnectTunnel
  cases wo with
  | false => simp
  | true =>
    rcases rs with - | sc
    · simp
    · by_cases hsc : sc = 200
      · subst hsc; simp
      · simp [hsc]

theorem httpConnectTunnel_closed_of_error (addr : String)
    (user : Option GoUserinfo) (w : TunnelWorld)
    (h : (httpConnectTunnel addr user w).result ≠ .ok ()) :
    (httpConnectTunnel addr user w).connClosed = true := by
  rcases w with ⟨wo, rs⟩
  unfold httpConnectTunnel at h ⊢
  cases wo with
  | false => simp
  | true =>
    rcases rs with - | sc
    · simp
    · by_cases hsc : sc = 200
      · subst hsc; simp at h
      · simp [hsc]

theorem httpConnectTunnel_open_of_ok (addr : String)
    (user : Option GoUserinfo) (w : TunnelWorld)
    (h : (httpConnectTunnel addr user w).result = .ok ()) :
    (httpConnectTunnel addr user w).connClosed = false := by
  have hw := (httpConnectTunnel_ok_iff addr user w).1 h
  rcases w with ⟨wo, rs⟩
  obtain ⟨rfl, rfl⟩ : wo = true ∧ rs = some 200 := ⟨hw.1, hw.2⟩
  simp [httpConnectTunnel]

/-- **C8.**  The `http`/`https` branch of `dialContext` writes exactly
`CONNECT host:port HTTP/1.1\r\nHost: host:port\r\n\r\n` to the
upstream, with a `Proxy-Authorization: Basic base64(user:password)`
line inserted before the final blank line exactly when the descriptor
carries userinfo; the connection is returned open only for a parsed
status of 200, and every other outcome (write failure, unreadable
response, non-200 status) yields an error with the connection
closed. -/
theorem connect_tunnel_exact_bytes (addr : String) (user : Option GoUserinfo)
    (w : TunnelWorld) :
    (user = none →
      (httpConnectTunnel addr user w).sent =
        "CONNECT " ++ addr ++ " HTTP/1.1\r\nHost: " ++ addr ++ "\r\n\r\n") ∧
    (∀ u, user = some u →
      (httpConnectTunnel addr user w).sent =
        "CONNECT " ++ addr ++ " HTTP/1.1\r\nHost: " ++ addr ++
          "\r\nProxy-Authorization: Basic " ++
          base64EncodeStr (utf8Bytes (u.username ++ ":" ++ u.password.getD "")) ++
          "\r\n\r\n") ∧
    ((httpConnectTunnel addr user w).result = .ok () ↔
      w.writeOk = true ∧ w.readStatus = some 200) ∧
    ((httpConnectTunnel addr user w).result ≠ .ok () →
      (httpConnectTunnel addr user w).connClosed = true) ∧
    ((httpConnectTunnel addr user w).result = .ok () →
      (httpConnectTunnel addr user w).connClosed = false) := by
  refine ⟨?_, ?_, httpConnectTunnel_ok_iff addr user w,
    httpConnectTunnel_closed_of_error addr user w,
    httpConnectTunnel_open_of_ok addr user w⟩
  · rintro rfl
    rw [httpConnectTunnel_sent]
    show (("CONNECT " ++ addr ++ " HTTP/1.1\r\nHost: " ++ addr ++ "\r\n") ++
      "\r\n") = _
    have h2 : ("\r\n\r\n" : String) = "\r\n" ++ "\r\n" := rfl
    rw [h2, ← String.append_assoc]
  · rintro u rfl
    rw [httpConnectTunnel_sent]
    show (("CONNECT " ++ addr ++ " HTTP/1.1\r\nHost: " ++ addr ++ "\r\n") ++
        "Proxy-Authorization: Basic " ++
        base64EncodeStr (utf8Bytes (u.username ++ ":" ++ u.password.getD "")) ++
        "\r\n") ++ "\r\n" = _
    have h2 : ("\r\n\r\n" : String) = "\r\n" ++ "\r\n" := rfl
    have h3 : ("\r\nProxy-Authorization: Basic " : String) =
        "\r\n" ++ "Proxy-Authorization: Basic " := rfl
    rw [h2, h3]
    simp [String.append_assoc]

/-- Witness for C8: with userinfo `user:pass`, write success and a 200
response, the tunnel sends the exact CONNECT bytes with the Basic
header `dXNlcjpwYXNz` and returns the open connection. -/
theorem connect_tunnel_exact_bytes_witness :
    (httpConnectTunnel "example.com:443" (some ⟨"user", some "pass"⟩)
        ⟨true, some 200⟩).sent =
      "CONNECT example.com:443 HTTP/1.1\r\nHost: example.com:443\r\nProxy-Authorization: Basic dXNlcjpwYXNz\r\n\r\n" ∧
    (httpConnectTunnel "example.com:443" (some ⟨"user", some "pass"⟩)
        ⟨true, some 200⟩).result = .ok () ∧
    (httpConnectTunnel "example.com:443" (some ⟨"user", some "pass"⟩)
        ⟨true, some 200⟩).connClosed = false := by
  have h := connect_tunnel_exact_bytes "example.com:443"
    (some ⟨"user", some "pass"⟩) ⟨true, some 200⟩
  refine ⟨?_, ?_, ?_⟩
  · rw [h.2.1 ⟨"user", some "pass"⟩ rfl]
    rfl
  · exact h.2.2.1.2 ⟨rfl, rfl⟩
  · exact h.2.2.2.2 (h.2.2.1.2 ⟨rfl, rfl⟩)

/-- **C9.**  When the decision result names a proxy key absent from
the `Proxies` map, `handleRequest` answers the client with status 500
— the missing key is handled by the two-result map read, not a panic —
and `LoadConfig` succeeds on any decoded document regardless of rules
or default referencing missing proxy keys (it performs no key
validation). -/
theorem unknown_proxy_key_500_load_ok :
    (∀ (env : MatchEnv) (cfg : ProxyConfig) (caches : DecisionCaches)
        (r : GoURL),
      lookupProxy cfg.proxies
        (getProxyDecision env cfg caches r.hostname
          (r.render r.scheme)).1.proxy = none →
      (handleRequest env cfg caches r).1 =
        .errorResponse 500 "Proxy configuration error") ∧
    (∀ (fs : ConfigFS) (c : RawConfig) (rule : RawRuleConfig),
      fs.configExists = true → fs.openOk = true → fs.yamlDecoded = .ok c →
      rule ∈ c.rules → lookupProxy c.proxies rule.proxy = none →
      lookupProxy c.proxies c.defaultProxy = none →
      LoadConfig fs = .ok c) := by
  constructor
  · intro env cfg caches r h
    cases hd : getProxyDecision env cfg caches r.hostname (r.render r.scheme)
      with
    | mk d cs =>
      rw [hd] at h
      dsimp only at h
      unfold handleRequest
      dsimp only
      rw [hd]
      dsimp only
      rw [h]
  · rintro fs c rule hex hop hyaml - - -
    unfold LoadConfig
    rw [hex, hop, hyaml]
    simp

/-- Witness for C9: a ruleset whose default key is missing from
`Proxies` answers 500, and a document whose only rule names a missing
proxy key still loads. -/
theorem unknown_proxy_key_500_load_ok_witness :
    (handleRequest ⟨fun _ _ => false, fun _ => none⟩
        { defaultProxy := "nope", proxies := [("direct", "")], rules := [] }
        {} ⟨"http", "a.com", fun _ => "http://a.com/"⟩).1 =
      .errorResponse 500 "Proxy configuration error" ∧
    LoadConfig ⟨true, true, true,
        .ok { defaultProxy := "x", proxies := [],
              rules := [{ proxy := "missing" }] }⟩ =
      .ok { defaultProxy := "x", proxies := [],
            rules := [{ proxy := "missing" }] } := by
  constructor
  · exact unknown_proxy_key_500_load_ok.1 ⟨fun _ _ => false, fun _ => none⟩
      { defaultProxy := "nope", proxies := [("direct", "")], rules := [] }
      {} ⟨"http", "a.com", fun _ => "http://a.com/"⟩ (by decide)
  · exact unknown_proxy_key_500_load_ok.2 ⟨true, true, true, .ok _⟩
      { defaultProxy := "x", proxies := [], rules := [{ proxy := "missing" }] }
      { proxy := "missing" } rfl rfl rfl (by decide) (by decide) (by decide)

/-- **C10.**  For every URL string accepted by `url.Parse`,
`GetProxyForURL` returns no error even when the decided proxy key is
missing from the `Proxies` map: the returned proxy URL is then the
map's zero value `""`, which `dialContext` treats as the direct
disposition — while `GetProxyForRequest` on the same inputs returns a
non-nil error for the same missing key. -/
theorem getProxyForURL_missing_key_silent (env : MatchEnv)
    (cfg : ProxyConfig) (caches : DecisionCaches)
    (parse : String → Option GoURL) (urlStr : String) (u : GoURL)
    (hparse : parse urlStr = some u)
    (hmiss : lookupProxy cfg.proxies
      (getProxyDecision env cfg caches u.hostname
        (u.render (if u.scheme = "" then "http" else u.scheme))).1.proxy =
      none) :
    (GetProxyForURL env cfg caches parse urlStr).1.1 = "" ∧
    (GetProxyForURL env cfg caches parse urlStr).1.2.2.2 = none ∧
    (GetProxyForRequest env cfg caches
      { u with scheme := if u.scheme = "" then "http" else u.scheme }).1.2.2 ≠
      none ∧
    (∀ (parseProxy : String → Option ProxyURLInfo) (addr : String),
      dialContextAction parseProxy (some "") addr = DialAction.direct addr) := by
  cases hd : getProxyDecision env cfg caches u.hostname
      (u.render (if u.scheme = "" then "http" else u.scheme)) with
  | mk d cs =>
    rw [hd] at hmiss
    dsimp only at hmiss
    refine ⟨?_, ?_, ?_, fun parseProxy addr => rfl⟩
    · unfold GetProxyForURL
      rw [hparse]
      dsimp only
      rw [hd]
      dsimp only
      rw [hmiss]
      rfl
    · unfold GetProxyForURL
      rw [hparse]
    · unfold GetProxyForRequest
      dsimp only
      rw [hd]
      dsimp only
      rw [hmiss]
      dsimp only
      intro h
      exact Option.noConfusion h

/-- Witness for C10 at a concrete missing key: the decided default key
`nope` is absent, `GetProxyForURL` reports no error with proxy URL
`""`, and `GetProxyForRequest` reports an error. -/
theorem getProxyForURL_missing_key_silent_witness :
    (GetProxyForURL ⟨fun _ _ => false, fun _ => none⟩
        { defaultProxy := "nope", proxies := [("direct", "")], rules := [] }
        {} (fun _ => some ⟨"", "a.com", fun sch => sch ++ "://a.com/"⟩)
        "a.com").1.1 = "" ∧
    (GetProxyForURL ⟨fun _ _ => false, fun _ => none⟩
        { defaultProxy := "nope", proxies := [("direct", "")], rules := [] }
        {} (fun _ => some ⟨"", "a.com", fun sch => sch ++ "://a.com/"⟩)
        "a.com").1.2.2.2 = none ∧
    (GetProxyForRequest ⟨fun _ _ => false, fun _ => none⟩
        { defaultProxy := "nope", proxies := [("direct", "")], rules := [] }
        {} ⟨"http", "a.com", fun sch => sch ++ "://a.com/"⟩).1.2.2 ≠ none := by
  have h := getProxyForURL_missing_key_silent
    ⟨fun _ _ => false, fun _ => none⟩
    { defaultProxy := "nope", proxies := [("direct", "")], rules := [] }
    {} (fun _ => some ⟨"", "a.com", fun sch => sch ++ "://a.com/"⟩)
    "a.com" ⟨"", "a.com", fun sch => sch ++ "://a.com/"⟩ rfl (by decide)
  exact ⟨h.1, h.2.1, h.2.2.1⟩

/-- Witness for the amended C6 at a concrete rule: hosts
`*.ex.com *.` compile to a list where `*.ex.com` is accompanied by
`ex.com`, and the `*.` token is what lets the empty string in. -/
theorem preParse_wildcard_expansion_amended_witness :
    "*.ex.com" ∈ hostTokens (fun _ => none) { hosts := "*.ex.com" } {} ∧
    listStartsWith ['*', '.'] ("*.ex.com").data = true ∧
    "*.ex.com" ∈ preParsedHosts (fun _ => none) { hosts := "*.ex.com" } {} ∧
    "ex.com" ∈ preParsedHosts (fun _ => none) { hosts := "*.ex.com" } {} ∧
    "" ∉ preParsedIps (fun _ => none) { hosts := "*.ex.com" } {} ∧
    "" ∉ preParsedHosts (fun _ => none) { hosts := "*.ex.com" } {} := by
  have h1 := (preParse_wildcard_expansion_amended (fun _ => none)
    { hosts := "*.ex.com" } {}).1 "*.ex.com" (by decide) (by decide)
  have h2 := (preParse_wildcard_expansion_amended (fun _ => none)
    { hosts := "*.ex.com" } {}).2.1
  have h4 := (preParse_wildcard_expansion_amended (fun _ => none)
    { hosts := "*.ex.com" } {}).2.2.2 (by decide)
  exact ⟨by decide, by decide, h1.1, by simpa using h1.2, h2, h4⟩

end GoProxy
